import Mathlib

/-!
Shallow embedding of the Mic Roster scraper's shift-extraction and
calendar-reconciliation core (`mic_roster_selenium.py`, `scrape.py`).

HTML acquisition and the remote Google Calendar service are external; a page is
modelled as the month label (the text of the `lblCurrentMonth` span, absent when
the element is missing) together with the list of day cells the document holds
at ids `DateCell1 .. DateCell39` (`none` when the `td` is absent, `some t` when
present with extracted text `t`).  The wall clock used for the `description`
field and the outcomes of the remote delete/insert calls are passed in as
explicit parameters.  Python string operations that the source relies on
(`str.split` with an explicit separator, slicing, `str.replace`, `str.lower`)
are reimplemented character-list-structurally so that all definitions reduce in
the kernel.
-/

namespace MicRoster

/-! ## Python-style string primitives -/

/-- `pySplitAux sep cs acc` accumulates the current chunk in reverse. -/
def pySplitAux (sep : Char) : List Char → List Char → List String
  | [], acc => [⟨acc.reverse⟩]
  | c :: cs, acc =>
    if c = sep then ⟨acc.reverse⟩ :: pySplitAux sep cs []
    else pySplitAux sep cs (c :: acc)

/-- Python `s.split(sep)` for a one-character separator: splits at every
occurrence, keeping empty chunks, and returns `[""]` on the empty string. -/
def pySplit (s : String) (sep : Char) : List String :=
  pySplitAux sep s.data []

/-- Python `s[:n]`. -/
def pyTake (s : String) (n : Nat) : String := ⟨s.data.take n⟩

/-- Python `s[n:]`. -/
def pyDrop (s : String) (n : Nat) : String := ⟨s.data.drop n⟩

/-- Python `s.lower()` (ASCII, which is all the source compares). -/
def pyLower (s : String) : String := ⟨s.data.map Char.toLower⟩

/-- One rewrite pass inserting a space after every close parenthesis. -/
def parenFix : List Char → List Char
  | [] => []
  | c :: cs => if c = ')' then ')' :: ' ' :: parenFix cs else c :: parenFix cs

/-- Mirrors `cell_text.replace(")", ") ") if ")" in cell_text else cell_text`
(line 248 of `mic_roster_selenium.py`; line 146 of `scrape.py`). -/
def normalizeCellText (raw : String) : String :=
  if raw.data.contains ')' then ⟨parenFix raw.data⟩ else raw

/-! ## Data model -/

/-- The calendar-event body built by `process_response_cal` (lines 262-286).
The fixed reminder policy is kept as data so the builder is total on it. -/
structure GEvent where
  summary : String
  location : String
  description : String
  startDateTime : String
  startTimeZone : String
  endDateTime : String
  endTimeZone : String
  remindersUseDefault : Bool
  reminderOverrides : List (String × Nat)
deriving DecidableEq

/-- One rendered month view, as far as the parser reads it. -/
structure Page where
  monthLabel : Option String
  cells : List (Option String)

/-- The uncaught exception of `process_response_cal`: with no month heading,
`month` is `None` and `month.split(" ")` (line 258) raises `AttributeError`
outside the `try` block. The payload is the offending cell text. -/
inductive PageError where
  | monthMissing (cellText : String)
deriving DecidableEq

/-- The mutable state `process_response_cal` touches: the module-level
`event_dict` (line 58) and the transcript of `input(...)` operator
acknowledgments issued for malformed cells (line 291). -/
structure ProcState where
  event_dict : List (String × GEvent)
  prompts : List String
deriving DecidableEq

/-- Pointwise overwrite of the entries holding key `k`. -/
def updKV (k : String) (v : GEvent) (p : String × GEvent) : String × GEvent :=
  if p.1 = k then (k, v) else p

/-- Python-dict insertion on an association list: overwrite in place when the
key is present (keeping its position, as `dict` does), else append. -/
def insertAL (d : List (String × GEvent)) (k : String) (v : GEvent) :
    List (String × GEvent) :=
  if d.any fun p => decide (p.1 = k) then d.map (updKV k v)
  else d ++ [(k, v)]

/-! ## The shift-extraction core -/

/-- Mirrors `convert_month_to_num` (lines 210-228). -/
def convert_month_to_num (month_string : String) : String :=
  let month : List (String × String) :=
    [("january", "01"), ("february", "02"), ("march", "03"), ("april", "04"),
     ("may", "05"), ("june", "06"), ("july", "07"), ("august", "08"),
     ("september", "09"), ("october", "10"), ("november", "11"),
     ("december", "12")]
  match month.find? fun p => decide (p.1 = pyLower month_string) with
  | some p => p.2
  | none => "Invalid"

/-- The first-token marker vocabulary of line 255-257: first tokens that make
the cell a non-shift day. -/
def markerFirstTokens : List String := ["OFF", "PH", "OT", "NA", "SICK", "Not"]

/-- `cell_text.split(" ")[0]` — safe, since Python split never returns `[]`. -/
def firstTok (s : String) : String := (pySplit s ' ').headD ""

/-- `f"0{date}"` when `date < 10`, else `str(date)` (lines 251-254). -/
def fmtDay (date : Nat) : String :=
  if date < 10 then "0" ++ toString date else toString date

/-- The `HH:MM:00` piece `f'{t[:2]}:{t[2:]}:00'` built from one time token. -/
def timeSliceStr (t : String) : String :=
  pyTake t 2 ++ ":" ++ pyDrop t 2 ++ ":00"

/-- The `f'{year}-{month}-{day}T'` piece shared by both instants of one cell. -/
def dateStem (year monthNum d : String) : String :=
  year ++ "-" ++ monthNum ++ "-" ++ d ++ "T"

/-- Mirrors the `event` dict construction of lines 258-286, with the wall clock
passed in as `now`.  Returns `none` exactly when one of the indexings
`shift_text[2]`, `date_text[1]`, `time_text[1]` would raise `IndexError` (the
only statements in the `try` block that can raise); the source catches that and
prompts the operator instead of inserting.  Note that string slicing
(`time_text[0][:2]` etc.) never raises in Python, so no check guards it here
either. -/
def buildEvent (month d cell_text now : String) : Option GEvent :=
  let date_text := pySplit month ' '
  let shift_text := pySplit cell_text ' '
  let time_text := pySplit (shift_text.headD "") '-'
  match shift_text.get? 2, date_text.get? 1, time_text.get? 1 with
  | some role, some year, some tEnd =>
    let tStart := time_text.headD ""
    let stem := dateStem year (convert_month_to_num (date_text.headD "")) d
    some
      { summary := role
        location := "25 Garden Street Eveleigh NSW 2015"
        description := "Date shift last updated: " ++ now
        startDateTime := stem ++ timeSliceStr tStart
        startTimeZone := "Australia/Sydney"
        endDateTime := stem ++ timeSliceStr tEnd
        endTimeZone := "Australia/Sydney"
        remindersUseDefault := false
        reminderOverrides :=
          [("email", 24 * 60), ("email", 12 * 60), ("popup", 12 * 60),
           ("popup", 60), ("popup", 10)] }
  | _, _, _ => none

/-- One populated cell (non-empty normalized text), mirroring lines 255-291:
marker first tokens are skipped silently; otherwise a missing month label
raises (escaping the function); otherwise the event is built and inserted under
its start-instant key, the key expression (line 288) being the same f-string as
the start `dateTime`; an `IndexError` inside the `try` is answered by an
operator prompt and the cell is skipped. -/
def processCell (month : Option String) (now d cell_text : String)
    (st : ProcState) : Option PageError × ProcState :=
  if firstTok cell_text ∈ markerFirstTokens then (none, st)
  else
    match month with
    | none => (some (.monthMissing cell_text), st)
    | some m =>
      match buildEvent m d cell_text now with
      | some ev =>
        (none, { st with event_dict := insertAL st.event_dict ev.startDateTime ev })
      | none => (none, { st with prompts := st.prompts ++ [cell_text] })

/-- The cell loop of lines 240-292: `date` counts populated cells only, cells
absent from the document or with empty text are passed over, and an uncaught
error aborts the remaining cells (the state reflects the work already done,
since `event_dict` is module-level). -/
def processCells (month : Option String) (now : String) :
    List (Option String) → Nat → ProcState → Option PageError × ProcState
  | [], _, st => (none, st)
  | none :: rest, date, st => processCells month now rest date st
  | some raw :: rest, date, st =>
    if normalizeCellText raw = "" then processCells month now rest date st
    else
      match processCell month now (fmtDay date) (normalizeCellText raw) st with
      | (some e, st') => (some e, st')
      | (none, st') => processCells month now rest (date + 1) st'

/-- Mirrors `process_response_cal` (lines 231-293) on one page. -/
def process_response_cal (p : Page) (now : String) (st : ProcState) :
    Option PageError × ProcState :=
  processCells p.monthLabel now p.cells 1 st

/-- A sequence of page-processing calls against the shared accumulator. -/
def processPages (ps : List Page) (now : String) (st : ProcState) : ProcState :=
  ps.foldl (fun s p => (process_response_cal p now s).2) st

/-! ## The grid parser's cell sequence -/

/-- The ordered `(sequentialDayNumber, text)` sequence the cell loop consumes:
one entry per present cell with non-empty normalized text, numbered from the
given starting counter. -/
def gridCells : List (Option String) → Nat → List (Nat × String)
  | [], _ => []
  | none :: rest, date => gridCells rest date
  | some raw :: rest, date =>
    if normalizeCellText raw = "" then gridCells rest date
    else (date, normalizeCellText raw) :: gridCells rest (date + 1)

/-- Whether a document cell yields non-empty text. -/
def populated : Option String → Bool
  | none => false
  | some raw => decide (normalizeCellText raw ≠ "")

def populatedCount (cells : List (Option String)) : Nat :=
  cells.countP populated

/-! ## The insertion trace of one page -/

/-- The `(key, event)` pairs a month-labelled page writes into `event_dict`,
in cell order.  It depends only on the page, the label and the clock — not on
the accumulator state. -/
def insTrace (m now : String) : List (Option String) → Nat → List (String × GEvent)
  | [], _ => []
  | none :: rest, date => insTrace m now rest date
  | some raw :: rest, date =>
    if normalizeCellText raw = "" then insTrace m now rest date
    else if firstTok (normalizeCellText raw) ∈ markerFirstTokens then
      insTrace m now rest (date + 1)
    else
      match buildEvent m (fmtDay date) (normalizeCellText raw) now with
      | some ev => (ev.startDateTime, ev) :: insTrace m now rest (date + 1)
      | none => insTrace m now rest (date + 1)

/-- Left-to-right replay of a list of dictionary writes. -/
def applyInserts (d : List (String × GEvent)) :
    List (String × GEvent) → List (String × GEvent)
  | [] => d
  | (k, v) :: L => applyInserts (insertAL d k v) L

/-! ## The calendar reconciler of `main` -/

/-- A remote event, of which only the id is consumed (lines 493-497). -/
structure RemoteEvent where
  id : String
deriving DecidableEq

/-- One remote-service call issued during reconciliation. -/
inductive ApiCall where
  | deleteCall (eventId : String)
  | createCall (body : GEvent)
deriving DecidableEq

/-- The raw `service.events().delete(...).execute()` call: issued, then either
returns or raises, according to the service outcome oracle `deleteOk`. -/
def svcDelete (deleteOk : String → Bool) (eid : String) : Except String Unit :=
  if deleteOk eid then .ok () else .error ("delete failed: " ++ eid)

/-- Mirrors `delete_calendar_event` (lines 420-438): the service call sits in a
`try/except` that swallows any exception, so the function always returns.  It
reports the call it attempted and the line it printed. -/
def delete_calendar_event (deleteOk : String → Bool) (eid : String) :
    List ApiCall × String :=
  match svcDelete deleteOk eid with
  | .ok _ => ([.deleteCall eid], "Event with ID " ++ eid ++ " deleted successfully.")
  | .error e => ([.deleteCall eid], "An error occurred: " ++ e)

/-- The delete loop of `main` (lines 493-497): one `delete_calendar_event` per
listed remote event, unconditionally. -/
def deleteLoop (deleteOk : String → Bool) : List RemoteEvent → List ApiCall
  | [] => []
  | e :: rest => (delete_calendar_event deleteOk e.id).1 ++ deleteLoop deleteOk rest

/-- The raw `service.events().insert(...).execute()` call. -/
def svcInsert (createOk : GEvent → Bool) (ev : GEvent) : Except String Unit :=
  if createOk ev then .ok () else .error "create failed"

/-- Mirrors `create_calendar_event` (lines 349-390): performs the insert call
and lets any failure propagate to the caller. -/
def create_calendar_event (createOk : GEvent → Bool) (ev : GEvent) :
    List ApiCall × Except String Unit :=
  ([.createCall ev], svcInsert createOk ev)

/-- The create loop of `main` (lines 514-518): each `create_calendar_event` is
wrapped in `try/except`, so a propagated failure is swallowed ("Skipped event")
and iteration continues with the next entry. -/
def createLoop (createOk : GEvent → Bool) : List (String × GEvent) → List ApiCall
  | [] => []
  | (_, ev) :: rest =>
    match create_calendar_event createOk ev with
    | (calls, _) => calls ++ createLoop createOk rest

/-- The delete-then-create reconciliation sequence of `main`: all deletes for
the listed window first, then one create per aggregated entry. -/
def reconcile (deleteOk : String → Bool) (createOk : GEvent → Bool)
    (remote : List RemoteEvent) (dict : List (String × GEvent)) : List ApiCall :=
  deleteLoop deleteOk remote ++ createLoop createOk dict

def isDeleteCall : ApiCall → Bool
  | .deleteCall _ => true
  | .createCall _ => false

def isCreateCall : ApiCall → Bool
  | .deleteCall _ => false
  | .createCall _ => true

/-! ## Dictionary lemmas -/

def keysOf (d : List (String × GEvent)) : List String := d.map Prod.fst

theorem keysOf_cons (p : String × GEvent) (d : List (String × GEvent)) :
    keysOf (p :: d) = p.1 :: keysOf d := rfl

theorem any_key_iff_mem_keysOf {d : List (String × GEvent)} {k : String} :
    (d.any fun p => decide (p.1 = k)) = true ↔ k ∈ keysOf d := by
  rw [List.any_eq_true]
  constructor
  · rintro ⟨p, hp, hpk⟩
    exact (of_decide_eq_true hpk) ▸ List.mem_map.2 ⟨p, hp, rfl⟩
  · intro h
    rcases List.mem_map.1 h with ⟨p, hp, rfl⟩
    exact ⟨p, hp, by simp⟩

theorem fst_updKV (k : String) (v : GEvent) (p : String × GEvent) :
    (updKV k v p).1 = p.1 := by
  unfold updKV
  split <;> simp_all

theorem keysOf_map_updKV (d : List (String × GEvent)) (k : String)
    (v : GEvent) : keysOf (d.map (updKV k v)) = keysOf d := by
  unfold keysOf
  rw [List.map_map]
  exact List.map_congr_left fun p _ => fst_updKV k v p

theorem mem_keysOf_insertAL {d : List (String × GEvent)} {a k : String}
    {v : GEvent} (h : a ∈ keysOf d) : a ∈ keysOf (insertAL d k v) := by
  unfold insertAL
  split
  · rw [keysOf_map_updKV]
    exact h
  · unfold keysOf at h ⊢
    rw [List.map_append]
    exact List.mem_append_left _ h

theorem self_mem_keysOf_insertAL (d : List (String × GEvent)) (k : String)
    (v : GEvent) : k ∈ keysOf (insertAL d k v) := by
  unfold insertAL
  split
  · rw [keysOf_map_updKV]
    next hany => exact any_key_iff_mem_keysOf.1 hany
  · unfold keysOf
    rw [List.map_append]
    exact List.mem_append_right _ (by simp)

theorem mem_keysOf_applyInserts {a : String} :
    ∀ (L : List (String × GEvent)) (d : List (String × GEvent)),
      a ∈ keysOf d → a ∈ keysOf (applyInserts d L)
  | [], _, h => h
  | (_, _) :: L, _, h => mem_keysOf_applyInserts L _ (mem_keysOf_insertAL h)

theorem written_mem_keysOf_applyInserts {k : String} :
    ∀ (L : List (String × GEvent)) (d : List (String × GEvent)),
      k ∈ L.map Prod.fst → k ∈ keysOf (applyInserts d L)
  | (k', v') :: L, d, h => by
    rcases List.mem_cons.1 h with h | h
    · subst h
      exact mem_keysOf_applyInserts L _ (self_mem_keysOf_insertAL d _ v')
    · exact written_mem_keysOf_applyInserts L _ h

theorem insertAL_values_at (d : List (String × GEvent)) (k : String)
    (v : GEvent) : ∀ p ∈ insertAL d k v, p.1 = k → p.2 = v := by
  intro p hp hpk
  unfold insertAL at hp
  split at hp
  · rcases List.mem_map.1 hp with ⟨q, _, rfl⟩
    by_cases hq : q.1 = k
    · simp [updKV, hq]
    · rw [updKV, if_neg hq] at hpk
      exact absurd hpk hq
  · rcases List.mem_append.1 hp with h | h
    · rename_i hany
      have hkm : k ∈ keysOf d := List.mem_map.2 ⟨p, h, hpk⟩
      exact absurd (any_key_iff_mem_keysOf.2 hkm) (by simpa using hany)
    · simp at h
      rw [h]

theorem insertAL_preserves_values {d : List (String × GEvent)} {k k' : String}
    {v v' : GEvent} (hne : k' ≠ k) (hd : ∀ p ∈ d, p.1 = k → p.2 = v) :
    ∀ p ∈ insertAL d k' v', p.1 = k → p.2 = v := by
  intro p hp hpk
  unfold insertAL at hp
  split at hp
  · rcases List.mem_map.1 hp with ⟨q, hq, rfl⟩
    by_cases hqk : q.1 = k'
    · rw [updKV, if_pos hqk] at hpk
      exact absurd hpk hne
    · rw [updKV, if_neg hqk] at hpk ⊢
      exact hd q hq hpk
  · rcases List.mem_append.1 hp with h | h
    · exact hd p h hpk
    · simp at h
      rw [h] at hpk
      exact absurd hpk hne

theorem applyInserts_values_stable {k : String} {v : GEvent} :
    ∀ (L : List (String × GEvent)), k ∉ L.map Prod.fst →
      ∀ d, (∀ p ∈ d, p.1 = k → p.2 = v) →
        ∀ p ∈ applyInserts d L, p.1 = k → p.2 = v
  | [], _, _, hd => hd
  | (k', v') :: L, hL, d, hd => by
    have hne : k' ≠ k := fun h => hL (by simp [h])
    have hL' : k ∉ L.map Prod.fst := fun h => hL (by simp [h])
    exact applyInserts_values_stable L hL' _ (insertAL_preserves_values hne hd)

/-- `d` and `e` have the same keys in the same positions and may differ only at
the values of entries whose key lies in `S`. -/
def SameMod (S : List String) (d e : List (String × GEvent)) : Prop :=
  List.Forall₂ (fun p q => p.1 = q.1 ∧ (p.1 ∉ S → p.2 = q.2)) d e

theorem SameMod.keysOf_eq {S : List String} {d e : List (String × GEvent)}
    (h : SameMod S d e) : keysOf d = keysOf e := by
  induction h with
  | nil => rfl
  | cons hrel _ ih =>
    rw [keysOf_cons, keysOf_cons, hrel.1, ih]

theorem sameMod_nil_eq {d e : List (String × GEvent)} (h : SameMod [] d e) :
    d = e := by
  induction h with
  | nil => rfl
  | cons hrel _ ih =>
    rw [ih, Prod.ext_iff.2 ⟨hrel.1, hrel.2 (by simp)⟩]

theorem forall₂_updKV_both {S : List String} {k : String} {v : GEvent}
    {d e : List (String × GEvent)} (h : SameMod (k :: S) d e) :
    SameMod S (d.map (updKV k v)) (e.map (updKV k v)) := by
  induction h with
  | nil => exact List.Forall₂.nil
  | cons hrel _ ih =>
    rename_i p q d' e' _
    simp only [List.map]
    refine List.Forall₂.cons ⟨?_, ?_⟩ ih
    · rw [fst_updKV, fst_updKV, hrel.1]
    · intro hns
      rw [fst_updKV] at hns
      by_cases hpk : p.1 = k
      · rw [updKV, if_pos hpk, updKV, if_pos (hrel.1.symm.trans hpk)]
      · rw [updKV, if_neg hpk, updKV, if_neg fun hc => hpk (hrel.1.trans hc)]
        exact hrel.2 (by simp [hpk, hns])

theorem sameMod_shrink_of_not_mem {S : List String} {k : String}
    {d e : List (String × GEvent)} (h : SameMod (k :: S) d e)
    (hkd : k ∉ keysOf d) : SameMod S d e := by
  induction h with
  | nil => exact List.Forall₂.nil
  | cons hrel _ ih =>
    rename_i p q d' e' _
    rw [keysOf_cons] at hkd
    refine List.Forall₂.cons ⟨hrel.1, ?_⟩ (ih fun hc => hkd (List.mem_cons_of_mem _ hc))
    intro hns
    refine hrel.2 fun hc => ?_
    rcases List.mem_cons.1 hc with hc | hc
    · exact hkd (hc ▸ List.mem_cons_self _ _)
    · exact hns hc

theorem sameMod_insert_shrink {S : List String} {k : String}
    {d e : List (String × GEvent)} (v : GEvent) (h : SameMod (k :: S) d e) :
    SameMod S (insertAL d k v) (insertAL e k v) := by
  have hkeys := h.keysOf_eq
  unfold insertAL
  by_cases hm : k ∈ keysOf d
  · rw [if_pos (any_key_iff_mem_keysOf.2 hm),
      if_pos (any_key_iff_mem_keysOf.2 (hkeys ▸ hm))]
    exact forall₂_updKV_both h
  · rw [if_neg fun hc => hm (any_key_iff_mem_keysOf.1 hc),
      if_neg fun hc => hm (hkeys ▸ any_key_iff_mem_keysOf.1 hc)]
    exact List.rel_append (sameMod_shrink_of_not_mem h hm)
      (List.Forall₂.cons ⟨rfl, fun _ => rfl⟩ List.Forall₂.nil)

theorem forall₂_updKV_left {S : List String} {k : String} {v : GEvent} :
    ∀ {f : List (String × GEvent)},
      (k ∈ S ∨ ∀ p ∈ f, p.1 = k → p.2 = v) →
      SameMod S (f.map (updKV k v)) f
  | [], _ => List.Forall₂.nil
  | p :: f, hk => by
    refine List.Forall₂.cons ⟨fst_updKV k v p, ?_⟩
      (forall₂_updKV_left (hk.imp id fun hv q hq => hv q (List.mem_cons_of_mem p hq)))
    intro hns
    rw [fst_updKV] at hns
    by_cases hpk : p.1 = k
    · rcases hk with hS | hv
      · exact absurd hS (hpk ▸ hns)
      · rw [updKV, if_pos hpk, hv p (List.mem_cons_self p f) hpk]
    · rw [updKV, if_neg hpk]

theorem sameMod_insert_left {f : List (String × GEvent)} {k : String}
    {v : GEvent} {S : List String} (hmem : k ∈ keysOf f)
    (hk : k ∈ S ∨ ∀ p ∈ f, p.1 = k → p.2 = v) : SameMod S (insertAL f k v) f := by
  unfold insertAL
  rw [if_pos (any_key_iff_mem_keysOf.2 hmem)]
  exact forall₂_updKV_left hk

theorem sameMod_applyInserts :
    ∀ (L : List (String × GEvent)) (d e : List (String × GEvent)),
      SameMod (L.map Prod.fst) d e → applyInserts d L = applyInserts e L
  | [], _, _, h => sameMod_nil_eq h
  | (_, v) :: L, _, _, h =>
    sameMod_applyInserts L _ _ (sameMod_insert_shrink v h)

theorem applyInserts_idem :
    ∀ (L : List (String × GEvent)) (d : List (String × GEvent)),
      applyInserts (applyInserts d L) L = applyInserts d L
  | [], _ => rfl
  | (k, v) :: L, d => by
    show applyInserts (insertAL (applyInserts (insertAL d k v) L) k v) L
        = applyInserts (insertAL d k v) L
    have hkX : k ∈ keysOf (applyInserts (insertAL d k v) L) :=
      mem_keysOf_applyInserts L _ (self_mem_keysOf_insertAL d k v)
    have hsm : SameMod (L.map Prod.fst)
        (insertAL (applyInserts (insertAL d k v) L) k v)
        (applyInserts (insertAL d k v) L) := by
      refine sameMod_insert_left hkX ?_
      by_cases hw : k ∈ L.map Prod.fst
      · exact Or.inl hw
      · exact Or.inr (applyInserts_values_stable L hw _ (insertAL_values_at d k v))
    rw [sameMod_applyInserts L _ _ hsm]
    exact applyInserts_idem L (insertAL d k v)

/-! ## Page-processing structure lemmas -/

/-- With no month heading, a page can only abort or skip: nothing is ever
written to the state (the abort fires before the prompt or the insert). -/
theorem processCells_none_state (now : String) :
    ∀ (cells : List (Option String)) (date : Nat) (st : ProcState),
      (processCells none now cells date st).2 = st
  | [], _, _ => rfl
  | none :: rest, date, st => processCells_none_state now rest date st
  | some raw :: rest, date, st => by
    simp only [processCells]
    split
    · exact processCells_none_state now rest date st
    · by_cases hm : firstTok (normalizeCellText raw) ∈ markerFirstTokens
      · simp only [processCell, if_pos hm]
        exact processCells_none_state now rest (date + 1) st
      · simp only [processCell, if_neg hm]

/-- With a month heading, no error can arise and the effect on `event_dict` is
exactly the replay of the page's insertion trace. -/
theorem processCells_some (m now : String) :
    ∀ (cells : List (Option String)) (date : Nat) (st : ProcState),
      (processCells (some m) now cells date st).1 = none ∧
      (processCells (some m) now cells date st).2.event_dict
        = applyInserts st.event_dict (insTrace m now cells date)
  | [], _, _ => ⟨rfl, rfl⟩
  | none :: rest, date, st => processCells_some m now rest date st
  | some raw :: rest, date, st => by
    by_cases he : normalizeCellText raw = ""
    · simp only [processCells, insTrace, if_pos he]
      exact processCells_some m now rest date st
    · by_cases hm : firstTok (normalizeCellText raw) ∈ markerFirstTokens
      · simp only [processCells, insTrace, if_neg he, if_pos hm, processCell]
        exact processCells_some m now rest (date + 1) st
      · rcases hb : buildEvent m (fmtDay date) (normalizeCellText raw) now with _ | ev
        · simp only [processCells, insTrace, if_neg he, if_neg hm, processCell, hb]
          exact processCells_some m now rest (date + 1)
            { st with prompts := st.prompts ++ [normalizeCellText raw] }
        · simp only [processCells, insTrace, if_neg he, if_neg hm, processCell, hb]
          simpa only [applyInserts] using processCells_some m now rest (date + 1)
            { st with event_dict := insertAL st.event_dict ev.startDateTime ev }

/-- One populated cell can only leave `event_dict` alone or insert into it;
existing keys survive. -/
theorem processCell_keys_mono {k : String} (month : Option String)
    (now d t : String) (st : ProcState) (h : k ∈ keysOf st.event_dict) :
    k ∈ keysOf (processCell month now d t st).2.event_dict := by
  unfold processCell
  split
  · exact h
  · split
    · exact h
    · split
      · exact mem_keysOf_insertAL h
      · exact h

/-- The cell loop never removes a key from `event_dict`. -/
theorem processCells_keys_mono {k : String} (month : Option String) (now : String) :
    ∀ (cells : List (Option String)) (date : Nat) (st : ProcState),
      k ∈ keysOf st.event_dict →
      k ∈ keysOf (processCells month now cells date st).2.event_dict
  | [], _, _, h => h
  | none :: rest, date, st, h => processCells_keys_mono month now rest date st h
  | some raw :: rest, date, st, h => by
    simp only [processCells]
    split
    · exact processCells_keys_mono month now rest date st h
    · have hst' := processCell_keys_mono month now (fmtDay date)
        (normalizeCellText raw) st h
      rcases hpc : processCell month now (fmtDay date) (normalizeCellText raw) st
        with ⟨err, st'⟩
      rw [hpc] at hst'
      cases err with
      | some e => simpa only [hpc] using hst'
      | none =>
        simp only [hpc]
        exact processCells_keys_mono month now rest (date + 1) st' hst'

/-- A sequence of page-processing calls never removes a key either. -/
theorem processPages_keys_mono {k : String} (now : String) :
    ∀ (ps : List Page) (st : ProcState), k ∈ keysOf st.event_dict →
      k ∈ keysOf (processPages ps now st).event_dict
  | [], _, h => h
  | p :: ps, st, h =>
    processPages_keys_mono now ps _
      (processCells_keys_mono p.monthLabel now p.cells 1 st h)

/-! ## Grid-parser lemmas -/

theorem populatedCount_none_cons (rest : List (Option String)) :
    populatedCount (none :: rest) = populatedCount rest := by
  simp [populatedCount, List.countP_cons, populated]

theorem populatedCount_some_cons (raw : String) (rest : List (Option String)) :
    populatedCount (some raw :: rest)
      = populatedCount rest + (if normalizeCellText raw = "" then 0 else 1) := by
  by_cases h : normalizeCellText raw = "" <;>
    simp [populatedCount, List.countP_cons, populated, h]

/-- An in-document cell with empty text is invisible to the cell sequence. -/
theorem gridCells_elide_empty :
    ∀ (xs ys : List (Option String)) (n : Nat),
      gridCells (xs ++ some "" :: ys) n = gridCells (xs ++ ys) n
  | [], ys, n => by
    show gridCells (some "" :: ys) n = gridCells ys n
    simp only [gridCells]
    rw [if_pos (show normalizeCellText "" = "" from rfl)]
  | none :: xs, ys, n => gridCells_elide_empty xs ys n
  | some raw :: xs, ys, n => by
    simp only [List.cons_append, gridCells]
    split
    · exact gridCells_elide_empty xs ys n
    · exact congrArg _ (gridCells_elide_empty xs ys (n + 1))

/-- The day numbers are consecutive from the starting counter, one per
populated cell. -/
theorem gridCells_numbers :
    ∀ (cells : List (Option String)) (n : Nat),
      (gridCells cells n).map Prod.fst = List.range' n (populatedCount cells)
  | [], _ => rfl
  | none :: rest, n => by
    rw [populatedCount_none_cons]
    exact gridCells_numbers rest n
  | some raw :: rest, n => by
    rw [populatedCount_some_cons]
    by_cases h : normalizeCellText raw = ""
    · simp only [gridCells, if_pos h]
      rw [gridCells_numbers rest n]
      simp [h]
    · simp only [gridCells, if_neg h, List.map]
      rw [gridCells_numbers rest (n + 1), List.range'_succ]

/-! ## String-order lemmas -/

theorem char_list_lt_append_iff :
    ∀ (p a b : List Char), (p ++ a) < (p ++ b) ↔ a < b
  | [], _, _ => Iff.rfl
  | c :: p, a, b => by
    show List.Lex (· < ·) (c :: (p ++ a)) (c :: (p ++ b)) ↔ a < b
    rw [List.Lex.cons_iff]
    exact char_list_lt_append_iff p a b

/-- Appending to a common prefix cancels on the left for the lexicographic
string order. -/
theorem string_lt_append_iff (p a b : String) : p ++ a < p ++ b ↔ a < b := by
  simp only [String.lt_iff_toList_lt]
  show (p ++ a).data < (p ++ b).data ↔ a.data < b.data
  rw [String.data_append, String.data_append]
  exact char_list_lt_append_iff p.data a.data b.data

/-! ## Month-missing abort lemma -/

/-- With no month heading, any populated non-marker cell in the list makes the
loop end in an error. -/
theorem processCells_none_isSome (now raw : String)
    (hne : normalizeCellText raw ≠ "")
    (hnm : firstTok (normalizeCellText raw) ∉ markerFirstTokens) :
    ∀ (cells : List (Option String)) (date : Nat) (st : ProcState),
      some raw ∈ cells →
      (processCells none now cells date st).1.isSome = true
  | c :: rest, date, st, hmem => by
    rcases List.mem_cons.1 hmem with hc | hc
    · rw [← hc]
      simp only [processCells, if_neg hne, processCell, if_neg hnm]
      rfl
    · cases c with
      | none => exact processCells_none_isSome now raw hne hnm rest date st hc
      | some raw₀ =>
        by_cases he : normalizeCellText raw₀ = ""
        · simp only [processCells, if_pos he]
          exact processCells_none_isSome now raw hne hnm rest date st hc
        · by_cases hm : firstTok (normalizeCellText raw₀) ∈ markerFirstTokens
          · simp only [processCells, if_neg he, processCell, if_pos hm]
            exact processCells_none_isSome now raw hne hnm rest (date + 1) st hc
          · simp only [processCells, if_neg he, processCell, if_neg hm]
            rfl

/-! ## Reconciler lemmas -/

theorem deleteLoop_eq_map (deleteOk : String → Bool) :
    ∀ remote : List RemoteEvent,
      deleteLoop deleteOk remote = remote.map fun e => ApiCall.deleteCall e.id
  | [] => rfl
  | e :: rest => by
    by_cases h : deleteOk e.id
    · simp only [deleteLoop, delete_calendar_event, svcDelete, if_pos h,
        List.map]
      rw [deleteLoop_eq_map deleteOk rest]
      rfl
    · simp only [deleteLoop, delete_calendar_event, svcDelete, if_neg h,
        List.map]
      rw [deleteLoop_eq_map deleteOk rest]
      rfl

theorem createLoop_eq_map (createOk : GEvent → Bool) :
    ∀ dict : List (String × GEvent),
      createLoop createOk dict = dict.map fun p => ApiCall.createCall p.2
  | [] => rfl
  | (_, _) :: rest => by
    simp only [createLoop, create_calendar_event, List.map]
    rw [createLoop_eq_map createOk rest]
    rfl

/-! ## The claims -/

/-- C1: For the cell text "0600-1400 ABC RoleName" interpreted as the 5th
populated cell (dayNumber 5) of a page whose month label is "March 2024", the
builder produces exactly one event, keyed "2024-03-05T06:00:00", with start
dateTime "2024-03-05T06:00:00", end dateTime "2024-03-05T14:00:00" and summary
"RoleName". -/
theorem c1_builder_march_day5 (now : String) :
    process_response_cal
      ⟨some "March 2024",
        [some "OFF", some "OFF", some "OFF", some "OFF",
         some "0600-1400 ABC RoleName"]⟩ now ⟨[], []⟩
    = (none,
       ⟨[("2024-03-05T06:00:00",
          { summary := "RoleName"
            location := "25 Garden Street Eveleigh NSW 2015"
            description := "Date shift last updated: " ++ now
            startDateTime := "2024-03-05T06:00:00"
            startTimeZone := "Australia/Sydney"
            endDateTime := "2024-03-05T14:00:00"
            endTimeZone := "Australia/Sydney"
            remindersUseDefault := false
            reminderOverrides :=
              [("email", 1440), ("email", 720), ("popup", 720),
               ("popup", 60), ("popup", 10)] })], []⟩) := rfl

/-- C2: For n listed remote events and a set of m entries, the reconciliation
sequence is exactly the n delete calls (in list order, all before any create)
followed by the m create calls (in set order); the counts are n and m, and the
sequence of attempted calls does not depend on which individual calls fail,
since every per-call failure is caught where the source catches it. -/
theorem c2_reconciler_counts_and_isolation (deleteOk deleteOk' : String → Bool)
    (createOk createOk' : GEvent → Bool) (remote : List RemoteEvent)
    (dict : List (String × GEvent)) :
    reconcile deleteOk createOk remote dict
      = (remote.map fun e => ApiCall.deleteCall e.id)
        ++ (dict.map fun p => ApiCall.createCall p.2) ∧
    (reconcile deleteOk createOk remote dict).countP isDeleteCall
      = remote.length ∧
    (reconcile deleteOk createOk remote dict).countP isCreateCall
      = dict.length ∧
    reconcile deleteOk createOk remote dict
      = reconcile deleteOk' createOk' remote dict := by
  have h1 : reconcile deleteOk createOk remote dict
      = (remote.map fun e => ApiCall.deleteCall e.id)
        ++ (dict.map fun p => ApiCall.createCall p.2) := by
    unfold reconcile
    rw [deleteLoop_eq_map, createLoop_eq_map]
  have h2 : reconcile deleteOk' createOk' remote dict
      = (remote.map fun e => ApiCall.deleteCall e.id)
        ++ (dict.map fun p => ApiCall.createCall p.2) := by
    unfold reconcile
    rw [deleteLoop_eq_map, createLoop_eq_map]
  refine ⟨h1, ?_, ?_, h1.trans h2.symm⟩
  · rw [h1, List.countP_append, List.countP_map, List.countP_map]
    rw [show (isDeleteCall ∘ fun e : RemoteEvent => ApiCall.deleteCall e.id)
        = fun _ => true from rfl,
      show (isDeleteCall ∘ fun p : String × GEvent => ApiCall.createCall p.2)
        = fun _ => false from rfl,
      List.countP_true, List.countP_false]
    rfl
  · rw [h1, List.countP_append, List.countP_map, List.countP_map]
    rw [show (isCreateCall ∘ fun e : RemoteEvent => ApiCall.deleteCall e.id)
        = fun _ => false from rfl,
      show (isCreateCall ∘ fun p : String × GEvent => ApiCall.createCall p.2)
        = fun _ => true from rfl,
      List.countP_true, List.countP_false]
    simp

/-- C3 counterexample: the cell "12ab-34cd EF Role" has non-numeric time
components, yet extraction does not fail: no operator prompt is recorded and an
event is inserted (keyed with the raw slices), so the cell is not classified
Malformed. -/
theorem c3_counterexample_nonnumeric_time :
    (process_response_cal ⟨some "March 2024", [some "12ab-34cd EF Role"]⟩ "X"
        ⟨[], []⟩).2.prompts = [] ∧
    keysOf (process_response_cal ⟨some "March 2024", [some "12ab-34cd EF Role"]⟩
        "X" ⟨[], []⟩).2.event_dict = ["2024-03-01T12:ab:00"] := by
  exact ⟨rfl, rfl⟩

/-- C3 (amended): for a non-empty non-marker cell whose extraction fails — and
in this code extraction fails exactly on an `IndexError`, i.e. fewer than 3
space-separated tokens or no "-" inside the first token; a non-numeric time
component is not detected — the cell is answered by an operator prompt, no
event is added, no error escapes, and the loop continues with the remaining
cells (the populated-cell counter still advancing). -/
theorem c3_extraction_failure_prompts_and_continues (month now raw : String)
    (rest : List (Option String)) (date : Nat) (st : ProcState)
    (hne : normalizeCellText raw ≠ "")
    (hnm : firstTok (normalizeCellText raw) ∉ markerFirstTokens)
    (hfail : (pySplit (normalizeCellText raw) ' ').length < 3 ∨
      (pySplit (firstTok (normalizeCellText raw)) '-').length < 2) :
    processCells (some month) now (some raw :: rest) date st
      = processCells (some month) now rest (date + 1)
          { st with prompts := st.prompts ++ [normalizeCellText raw] } := by
  have hb : buildEvent month (fmtDay date) (normalizeCellText raw) now = none := by
    simp only [buildEvent]
    split
    · rename_i role year tEnd h1 h2 h3
      exfalso
      rcases hfail with h | h
      · have hnone : (pySplit (normalizeCellText raw) ' ').get? 2 = none :=
          List.get?_eq_none.2 (by omega)
        rw [hnone] at h1
        cases h1
      · simp only [firstTok] at h
        have hnone : (pySplit ((pySplit (normalizeCellText raw) ' ').headD "")
            '-').get? 1 = none := List.get?_eq_none.2 (by omega)
        rw [hnone] at h3
        cases h3
    · rfl
  simp only [processCells, if_neg hne, processCell, if_neg hnm, hb]

/-- C3 witness: the two-token cell "0600 ABC" on a "March 2024" page is
prompted about and skipped, and processing moves on. -/
theorem c3_extraction_failure_witness :
    processCells (some "March 2024") "X" [some "0600 ABC"] 1 ⟨[], []⟩
      = processCells (some "March 2024") "X" [] 2 ⟨[], ["0600 ABC"]⟩ :=
  c3_extraction_failure_prompts_and_continues "March 2024" "X" "0600 ABC" [] 1
    ⟨[], []⟩ (by decide) (by decide) (Or.inl (by decide))

/-- C4: with the unrecognized month word "Marsh", `convert_month_to_num`
returns the sentinel "Invalid", but nothing fails: the page is processed with
no error and no prompt, and the event is inserted under the key
"2024-Invalid-01T06:00:00" — an event whose date text embeds "Invalid" does
reach the set, contradicting the required build failure. -/
theorem c4_invalid_month_event_inserted (now : String) :
    process_response_cal ⟨some "Marsh 2024", [some "0600-1400 ABC Role"]⟩ now
      ⟨[], []⟩
    = (none,
       ⟨[("2024-Invalid-01T06:00:00",
          { summary := "Role"
            location := "25 Garden Street Eveleigh NSW 2015"
            description := "Date shift last updated: " ++ now
            startDateTime := "2024-Invalid-01T06:00:00"
            startTimeZone := "Australia/Sydney"
            endDateTime := "2024-Invalid-01T14:00:00"
            endTimeZone := "Australia/Sydney"
            remindersUseDefault := false
            reminderOverrides :=
              [("email", 1440), ("email", 720), ("popup", 720),
               ("popup", 60), ("popup", 10)] })], []⟩) := rfl

/-- C5 counterexample: the overnight cell "2200-0600 ABC Role" on day 1 of
"March 2024" puts an event into the set whose end instant does not come after
its start instant — both are on the same calendar day and 06:00 < 22:00. -/
theorem c5_counterexample_overnight :
    ∃ kv ∈ (process_response_cal ⟨some "March 2024", [some "2200-0600 ABC Role"]⟩
        "X" ⟨[], []⟩).2.event_dict,
      ¬ kv.2.startDateTime < kv.2.endDateTime := by
  refine ⟨("2024-03-01T22:00:00",
    { summary := "Role"
      location := "25 Garden Street Eveleigh NSW 2015"
      description := "Date shift last updated: X"
      startDateTime := "2024-03-01T22:00:00"
      startTimeZone := "Australia/Sydney"
      endDateTime := "2024-03-01T06:00:00"
      endTimeZone := "Australia/Sydney"
      remindersUseDefault := false
      reminderOverrides :=
        [("email", 1440), ("email", 720), ("popup", 720),
         ("popup", 60), ("popup", 10)] }), by exact List.mem_singleton.2 rfl, ?_⟩
  intro hlt
  rw [String.lt_iff_toList_lt] at hlt
  revert hlt
  decide

/-- C5 (amended): the builder writes both instants onto one shared
calendar-day stem and copies the sliced time tokens verbatim, with no overnight
resolution: for every successful build, `startDateTime` is exactly the day
stem followed by the formatted first time token, `endDateTime` is exactly the
SAME day stem followed by the formatted second time token, and consequently
the start-before-end invariant holds precisely when the formatted start time
string is lexicographically below the formatted end time string — so an
overnight shift silently yields an event whose end precedes its start on the
same calendar day. -/
theorem c5_no_overnight_resolution (m d cell now year tEnd : String)
    (ev : GEvent)
    (hyear : (pySplit m ' ').get? 1 = some year)
    (htEnd : (pySplit (firstTok cell) '-').get? 1 = some tEnd)
    (h : buildEvent m d cell now = some ev) :
    ev.startDateTime
      = dateStem year (convert_month_to_num ((pySplit m ' ').headD "")) d
        ++ timeSliceStr ((pySplit (firstTok cell) '-').headD "") ∧
    ev.endDateTime
      = dateStem year (convert_month_to_num ((pySplit m ' ').headD "")) d
        ++ timeSliceStr tEnd ∧
    (ev.startDateTime < ev.endDateTime
      ↔ timeSliceStr ((pySplit (firstTok cell) '-').headD "")
          < timeSliceStr tEnd) := by
  simp only [firstTok] at htEnd
  simp only [buildEvent] at h
  split at h
  · rename_i role year' tEnd' h1 h2 h3
    rw [Option.some_inj] at h
    subst h
    rw [h2, Option.some_inj] at hyear
    subst hyear
    rw [h3, Option.some_inj] at htEnd
    subst htEnd
    exact ⟨rfl, rfl, string_lt_append_iff _ _ _⟩
  · cases h

/-- C5 witness: at the overnight build "2200-0600 ABC Role" on day 01 of
"March 2024", both produced instants carry the shared stem "2024-03-01T", and
the invariant reduces to "22:00:00" < "06:00:00". -/
theorem c5_no_overnight_resolution_witness :
    ("2024-03-01T22:00:00" : String) = "2024-03-01T" ++ "22:00:00" ∧
    ("2024-03-01T06:00:00" : String) = "2024-03-01T" ++ "06:00:00" ∧
    (("2024-03-01T22:00:00" : String) < "2024-03-01T06:00:00"
      ↔ ("22:00:00" : String) < "06:00:00") :=
  c5_no_overnight_resolution "March 2024" "01" "2200-0600 ABC Role" "X"
    "2024" "0600"
    { summary := "Role"
      location := "25 Garden Street Eveleigh NSW 2015"
      description := "Date shift last updated: X"
      startDateTime := "2024-03-01T22:00:00"
      startTimeZone := "Australia/Sydney"
      endDateTime := "2024-03-01T06:00:00"
      endTimeZone := "Australia/Sydney"
      remindersUseDefault := false
      reminderOverrides :=
        [("email", 1440), ("email", 720), ("popup", 720),
         ("popup", 60), ("popup", 10)] } (by decide) (by decide) rfl

/-- C6: a populated cell whose first space-separated token is one of OFF, PH,
OT, NA, SICK or Not is skipped without touching the state: no event, no
prompt, no error, and processing continues with the next cells, the
populated-cell counter advancing as usual. -/
theorem c6_marker_cells_skipped (month : Option String) (now raw : String)
    (rest : List (Option String)) (date : Nat) (st : ProcState)
    (h : firstTok (normalizeCellText raw) ∈ markerFirstTokens) :
    processCells month now (some raw :: rest) date st
      = processCells month now rest (date + 1) st := by
  have hne : normalizeCellText raw ≠ "" := by
    intro hc
    rw [hc] at h
    exact absurd h (by decide)
  simp only [processCells, if_neg hne, processCell, if_pos h]

/-- C6 witness: an "OFF" cell is skipped with the state untouched, even with no
month label on the page. -/
theorem c6_marker_cells_skipped_witness :
    processCells none "X" [some "OFF"] 1 ⟨[], []⟩
      = processCells none "X" [] 2 ⟨[], []⟩ :=
  c6_marker_cells_skipped none "X" "OFF" [] 1 ⟨[], []⟩ (by decide)

/-- C7: per-page aggregation is idempotent on the event set — processing the
same page a second time (with the same clock) leaves `event_dict` exactly as
after the first pass: colliding keys are overwritten in place, so neither the
keys, the contents, nor the size change. -/
theorem c7_page_aggregation_idempotent (p : Page) (now : String) (st : ProcState) :
    (process_response_cal p now (process_response_cal p now st).2).2.event_dict
      = (process_response_cal p now st).2.event_dict := by
  rcases p with ⟨ml, cells⟩
  cases ml with
  | none =>
    show (processCells none now cells 1 (processCells none now cells 1 st).2).2.event_dict
      = (processCells none now cells 1 st).2.event_dict
    rw [processCells_none_state now cells 1 st,
      processCells_none_state now cells 1 st]
  | some m =>
    have h1 := processCells_some m now cells 1 st
    have h2 := processCells_some m now cells 1
      (processCells (some m) now cells 1 st).2
    show (processCells (some m) now cells 1
        (processCells (some m) now cells 1 st).2).2.event_dict
      = (processCells (some m) now cells 1 st).2.event_dict
    rw [h2.2, h1.2, applyInserts_idem]

/-- C8: a day cell that is present in the document but carries empty text
contributes no entry to the parsed cell sequence and does not advance the
sequential day counter; starting at 1, the counter increments exactly once per
populated cell, so the emitted day numbers are 1, 2, …, one per populated
cell. -/
theorem c8_empty_cells_invisible :
    (∀ xs ys : List (Option String),
        gridCells (xs ++ some "" :: ys) 1 = gridCells (xs ++ ys) 1) ∧
    ∀ cells : List (Option String),
        (gridCells cells 1).map Prod.fst = List.range' 1 (populatedCount cells) :=
  ⟨fun xs ys => gridCells_elide_empty xs ys 1, fun cells => gridCells_numbers cells 1⟩

/-- C9: when the month-label element is absent and the page holds at least one
populated non-marker cell, page processing ends in an uncaught error — raised
at `month.split(" ")`, before the per-record `try` — and the page contributes
nothing at all to the state: the whole page is aborted rather than the one
record skipped. -/
theorem c9_missing_month_aborts_page (now : String)
    (cells : List (Option String)) (st : ProcState)
    (h : ∃ raw, some raw ∈ cells ∧ normalizeCellText raw ≠ "" ∧
      firstTok (normalizeCellText raw) ∉ markerFirstTokens) :
    (process_response_cal ⟨none, cells⟩ now st).1.isSome = true ∧
    (process_response_cal ⟨none, cells⟩ now st).2 = st := by
  rcases h with ⟨raw, hmem, hne, hnm⟩
  exact ⟨processCells_none_isSome now raw hne hnm cells 1 st hmem,
    processCells_none_state now cells 1 st⟩

/-- C9 witness: a single shift cell with no month label aborts the page and
leaves the state untouched. -/
theorem c9_missing_month_aborts_page_witness :
    (process_response_cal ⟨none, [some "0600-1400 ABC Role"]⟩ "X"
        ⟨[], []⟩).1.isSome = true ∧
    (process_response_cal ⟨none, [some "0600-1400 ABC Role"]⟩ "X"
        ⟨[], []⟩).2 = ⟨[], []⟩ :=
  c9_missing_month_aborts_page "X" [some "0600-1400 ABC Role"] ⟨[], []⟩
    ⟨"0600-1400 ABC Role", by decide, by decide, by decide⟩

/-- C10: the accumulator only grows — a page-processing call adds or
overwrites keys but never removes one, so any key present in the set survives
every further sequence of page-processing calls and is still present in the
set handed to the reconciler. -/
theorem c10_event_dict_monotone (ps : List Page) (now : String)
    (st : ProcState) (k : String) (h : k ∈ keysOf st.event_dict) :
    k ∈ keysOf (processPages ps now st).event_dict :=
  processPages_keys_mono now ps st h

/-- C10 witness: a pre-existing key "K" survives the processing of a further
page that inserts a new event. -/
theorem c10_event_dict_monotone_witness :
    ("K" : String) ∈ keysOf (processPages
      [⟨some "March 2024", [some "0600-1400 ABC RoleName"]⟩] "X"
      ⟨[("K",
        { summary := "S"
          location := "L"
          description := "D"
          startDateTime := "T"
          startTimeZone := "Z"
          endDateTime := "T2"
          endTimeZone := "Z"
          remindersUseDefault := false
          reminderOverrides := [] })], []⟩).event_dict :=
  c10_event_dict_monotone
    [⟨some "March 2024", [some "0600-1400 ABC RoleName"]⟩] "X"
    ⟨[("K",
      { summary := "S"
        location := "L"
        description := "D"
        startDateTime := "T"
        startTimeZone := "Z"
        endDateTime := "T2"
        endTimeZone := "Z"
        remindersUseDefault := false
        reminderOverrides := [] })], []⟩ "K" (by decide)

end MicRoster
